import Mathlib

/-!
Verification of the comment harvesting & engagement orchestration engine
(`src/social-scraper/python-scripts/*.py`) against its natural-language
specification.

The Python scripts are embedded shallowly:
* pure parsing/cleaning helpers become Lean functions on `String`/`List Char`;
* the scheduler loops (`main` reply loops of `instagram_scraper.py`,
  `linkedin_scraper.py`, `facebook_scraper.py`) become structurally recursive
  functions over the candidate list, with the outcome of each browser "post"
  action supplied by an oracle `postOk : ℕ → Bool` (indexed by the number of
  post attempts made so far) and the text produced by the generation service
  supplied by an oracle `gen`;
* control flow relevant to resource teardown becomes a small statement
  language with an exception-aware interpreter;
* Python `int` division of non-negative quantities is modelled by `Nat`
  division (Python's `int(...)` truncates toward zero, which on the
  non-negative values appearing here is the floor).
-/

namespace SocialScraper


/-- A normalized comment as consumed by the reply schedulers: the Python
dicts carry `author`/`username` and `text`/`comment` (plus a post URL that
only steers navigation and is irrelevant to the reply list). -/
structure SComment where
  author : String
  text : String
  deriving Repr, DecidableEq

/-- `ReplyAttempt` records as appended to the `replies_data` lists. -/
structure ReplyAttempt where
  username : String
  replyText : String
  success : Bool
  deriving Repr, DecidableEq

/-! ## Instagram reply loop (`instagram_scraper.py`, `main`, lines 373–411)

```python
replied_users = set()
for comment in all_comments:
    if reply_count >= args.reply_limit: break
    user = comment["author"]; text = comment["text"]
    if user in replied_users: continue
    reply = generate_reply(...)
    if post_ig_reply(driver, user, reply):
        replied_users.add(user); reply_count += 1
        replies_data.append({... "success": True})
    else:
        replies_data.append({... "success": False})
```

The function returns the appended `replies_data` together with the suffix of
candidates never examined because the `break` fired. -/
def igReplyLoop (limit : ℕ) (gen : SComment → String) (postOk : ℕ → Bool) :
    List SComment → List String → ℕ → ℕ → List ReplyAttempt × List SComment
  | [], _, _, _ => ([], [])
  | c :: rest, replied, count, attempts =>
    if limit ≤ count then ([], c :: rest)
    else if c.author ∈ replied then
      igReplyLoop limit gen postOk rest replied count attempts
    else
      let reply := gen c
      if postOk attempts then
        let r := igReplyLoop limit gen postOk rest (c.author :: replied) (count + 1) (attempts + 1)
        (⟨c.author, reply, true⟩ :: r.1, r.2)
      else
        let r := igReplyLoop limit gen postOk rest replied count (attempts + 1)
        (⟨c.author, reply, false⟩ :: r.1, r.2)

/-- Number of `success=true` entries in a reply list. -/
def successCount (rs : List ReplyAttempt) : ℕ :=
  rs.countP (·.success)

/-- Spec-side model of "one attempt per distinct author, first occurrence"
(deduplication keyed on the author, keeping the textually first comment of
each author not yet in `seen`).  Used to state the amended C1. -/
def specDedupByAuthor (seen : List String) : List SComment → List SComment
  | [] => []
  | c :: rest =>
    if c.author ∈ seen then specDedupByAuthor seen rest
    else c :: specDedupByAuthor (c.author :: seen) rest

/-! ## LinkedIn reply loop (`linkedin_scraper.py`, `main`, lines 197–207)

```python
for row in parsed:
    if reply_count < args.reply_limit:
        reply_text = generate_reply(...)
        success = post_linkedin_reply(driver, row["block"], reply_text)
        if success:
            reply_count += 1
            replies_data.append({..., "success": True})
        else:
            replies_data.append({..., "success": False})
```

There is no `replied_users` set: every parsed row below the limit is
attempted, duplicate authors included. -/
def liReplyLoop (limit : ℕ) (gen : SComment → String) (postOk : ℕ → Bool) :
    List SComment → ℕ → ℕ → List ReplyAttempt
  | [], _, _ => []
  | row :: rest, count, attempts =>
    if count < limit then
      let reply := gen row
      if postOk attempts then
        ⟨row.author, reply, true⟩ :: liReplyLoop limit gen postOk rest (count + 1) (attempts + 1)
      else
        ⟨row.author, reply, false⟩ :: liReplyLoop limit gen postOk rest count (attempts + 1)
    else
      liReplyLoop limit gen postOk rest count attempts

/-! ## Facebook reply loop (`facebook_scraper.py`, `__main__`, lines 445–483)

```python
for _, row in df.iterrows():
    if reply_count >= REPLY_LIMIT: break
    if row["username"] in replied_users: continue
    reply_text = generate_reply(...)
    success = post_reply(driver, reply_text)
    if success:
        replied_users.add(row["username"]); reply_count += 1
    else:
        failed_count += 1
    replies_data.append({"username": ..., "reply_text": ..., "success": success})
```

Besides the appended `replies_data` the embedding keeps a ghost trace of
which candidates were processed to an outcome, which were skipped as
duplicate authors, and which were never examined because the `break`
fired. -/
structure FBRun where
  replies : List ReplyAttempt
  processed : List SComment
  skipped : List SComment
  remaining : List SComment
  deriving Repr, DecidableEq

def fbReplyLoop (limit : ℕ) (gen : SComment → String) (postOk : ℕ → Bool) :
    List SComment → List String → ℕ → ℕ → FBRun
  | [], _, _, _ => ⟨[], [], [], []⟩
  | row :: rest, replied, count, attempts =>
    if limit ≤ count then ⟨[], [], [], row :: rest⟩
    else if row.author ∈ replied then
      let r := fbReplyLoop limit gen postOk rest replied count attempts
      { r with skipped := row :: r.skipped }
    else
      let reply := gen row
      let success := postOk attempts
      let r :=
        if success then
          fbReplyLoop limit gen postOk rest (row.author :: replied) (count + 1) (attempts + 1)
        else
          fbReplyLoop limit gen postOk rest replied count (attempts + 1)
      { r with replies := ⟨row.author, reply, success⟩ :: r.replies,
               processed := row :: r.processed }

/-! ## Python string helpers

`\s` / `str.strip()` whitespace (ASCII part), `str.lower()`, and the word
class `[A-Za-z0-9._]` of the Instagram handle pattern. -/

/-- Python `\s` / `str.strip()` whitespace characters (ASCII). -/
def isPySpace (c : Char) : Bool :=
  c = ' ' || c = '\t' || c = '\n' || c = '\x0b' || c = '\x0c' || c = '\r'

/-- ASCII lowercase of one character. -/
def asciiLower (c : Char) : Char :=
  if 'A' ≤ c && c ≤ 'Z' then Char.ofNat (c.toNat + 32) else c

/-- Python `str.lower()` (ASCII range, which covers all text these scripts
compare case-insensitively). -/
def pyLower (s : String) : String :=
  ⟨s.data.map asciiLower⟩

/-- Python `str.strip()` on a character list. -/
def pyStripChars (cs : List Char) : List Char :=
  ((cs.dropWhile (isPySpace ·)).reverse.dropWhile (isPySpace ·)).reverse

/-- Python `str.strip()`. -/
def pyStrip (s : String) : String :=
  ⟨pyStripChars s.data⟩

/-- `" ".join(lines)`. -/
def joinSpace (lines : List String) : String :=
  String.intercalate " " lines

/-! ## Instagram tokenizer (`instagram_scraper.py`, `parse_ig_comment_blocks`,
lines 167–246)

The username pattern is `^[A-Za-z0-9._]+$`, the time pattern is
`^\d+\s*(h|d|w|m)$` (IGNORECASE), noise is a fixed phrase list plus lines
starting with `©`, and `^\d+\s+likes?$` lines are skipped inside a body.
Python's `$` also matches just before a single trailing newline; the
embeddings below include that case. -/

/-- Character class `[A-Za-z0-9._]` of the Instagram handle pattern. -/
def igWordChar (c : Char) : Bool :=
  c.isAlpha || c.isDigit || c = '.' || c = '_'

/-- `re.match(r"^[A-Za-z0-9._]+$", s)` succeeds. -/
def igUsernameMatch (s : String) : Bool :=
  let cs := s.data
  (!cs.isEmpty && cs.all igWordChar) ||
    (cs.getLast? = some '\n' && !cs.dropLast.isEmpty && cs.dropLast.all igWordChar)

/-- Units accepted by the Instagram time pattern (IGNORECASE). -/
def igTimeUnit (c : Char) : Bool :=
  c = 'h' || c = 'd' || c = 'w' || c = 'm' || c = 'H' || c = 'D' || c = 'W' || c = 'M'

/-- `re.match(r"^\d+\s*(h|d|w|m)$", s, re.IGNORECASE)` succeeds.  `\d+` and
`\s*` are matched by maximal munch, which is faithful here because a shorter
`\d+` leaves a digit where the unit letter is required and a shorter `\s*`
leaves a whitespace character there. -/
def igTimeMatch (s : String) : Bool :=
  let cs := s.data
  let ds := cs.takeWhile (Char.isDigit ·)
  let r1 := cs.dropWhile (Char.isDigit ·)
  let r2 := r1.dropWhile (isPySpace ·)
  !ds.isEmpty &&
    (match r2 with
     | [u] => igTimeUnit u
     | [u, c] => igTimeUnit u && c = '\n'
     | _ => false)

/-- The exact-phrase noise alternations of `noise_patterns` (all compiled
with IGNORECASE), lowercased. -/
def igNoisePhrases : List String :=
  ["reply", "like", "likes", "view all",
   "locations", "threads", "instagram lite", "meta ai", "meta verified",
   "about", "blog", "jobs", "help", "api", "privacy", "terms",
   "contact uploading and non-users"]

/-- `is_noise` of `parse_ig_comment_blocks`: blank after stripping, one of
the boilerplate phrases, or a line starting with `©`. -/
def igIsNoise (s : String) : Bool :=
  let t := pyStrip s
  t = "" || igNoisePhrases.contains (pyLower t) || t.data.head? = some '©'

/-- `re.match(r"^\d+\s+likes?$", raw.strip().lower())` succeeds. -/
def igLikesLine (s : String) : Bool :=
  let cs := (pyLower (pyStrip s)).data
  let ds := cs.takeWhile (Char.isDigit ·)
  let r1 := cs.dropWhile (Char.isDigit ·)
  let sp := r1.takeWhile (isPySpace ·)
  let r2 := r1.dropWhile (isPySpace ·)
  !ds.isEmpty && !sp.isEmpty && (r2 = ['l', 'i', 'k', 'e'] || r2 = ['l', 'i', 'k', 'e', 's'])

/-- The bullet-skipping inner `while`: `raw_texts[i].strip() in ["•", ""]`. -/
def skipBullets : List String → List String
  | [] => []
  | x :: rest =>
    if pyStrip x = "•" || pyStrip x = "" then skipBullets rest else x :: rest

/-- The body-gathering inner `while`: accumulate fragments until the next
username or time match, skipping noise and "`N likes`" lines.  Returns the
accumulated `text_lines` and the unconsumed remainder. -/
def igGatherBody : List String → List String × List String
  | [] => ([], [])
  | x :: rest =>
    if igUsernameMatch x && !igIsNoise x then ([], x :: rest)
    else if igTimeMatch x then ([], x :: rest)
    else if igIsNoise x || igLikesLine x then igGatherBody rest
    else
      let r := igGatherBody rest
      (x :: r.1, r.2)

/-- Emitted Instagram comment record (`author` / `time` / `text` keys of the
dict appended by `parse_ig_comment_blocks`). -/
structure IGComment where
  author : String
  time : String
  text : String
  deriving Repr, DecidableEq

/-- The outer `while i < len(raw_texts)` of `parse_ig_comment_blocks`,
written with explicit fuel (one unit per outer iteration) so that the
function is structurally recursive; every iteration consumes at least one
fragment, so `length + 1` fuel is always enough (`parseIGGo_fuel_stable`). -/
def parseIGGo : ℕ → List String → List IGComment
  | 0, _ => []
  | _ + 1, [] => []
  | fuel + 1, x :: rest =>
    if igUsernameMatch x && !igIsNoise x then
      match skipBullets rest with
      | [] => []
      | t :: rest2 =>
        if igTimeMatch t then
          let g := igGatherBody rest2
          let body := pyStrip (joinSpace g.1)
          if body = "" then parseIGGo fuel g.2
          else ⟨x, t, body⟩ :: parseIGGo fuel g.2
        else parseIGGo fuel (t :: rest2)
    else parseIGGo fuel rest

/-- `parse_ig_comment_blocks(raw_texts)`. -/
def parseIG (raws : List String) : List IGComment :=
  parseIGGo (raws.length + 1) raws

/-! ## Instagram progress trace (`instagram_scraper.py`, `main` and
`google_search_instagram`)

The `progress` values emitted on the success path, in order:
`("running", 5)` (line 355), then inside the Google search one
`("searching", int((page / google_pages) * 30))` per page (line 106) and a
final `("searching", 30)` (line 123), then
`("running", 30 + int((idx / 3) * 40))` per processed post (lines
365–366), `("running", 70)` (line 371), `("running",
70 + int((reply_count / reply_limit) * 30))` per successful reply (lines
402–403), and `("completed", 100)` (line 431).  Python `int(...)` truncates
the non-negative quotient, which `Nat` division models (the float quotient
can differ from the exact one by strictly less than the truncation
granularity relevant to monotonicity and the bounds proved here). -/
def igProgressTrace (pages nposts successes lim : ℕ) : List ℕ :=
  5 :: (((List.range pages).map (fun p => p * 30 / pages)) ++ [30]
    ++ ((List.range nposts).map (fun i => 30 + i * 40 / 3)) ++ [70]
    ++ ((List.range successes).map (fun k => 70 + (k + 1) * 30 / lim)) ++ [100])

/-! ## Facebook container parser (`facebook_scraper.py`, `parse_blocks`,
lines 278–309)

Each comment container is parsed inside a `try`: the username lookup
(`block.find_element(".//a").text`) may raise, the span texts are collected
by `find_elements` (an empty list when absent), and the `abbr` time lookup
has its own inner `try` yielding `None` on failure; any raise skips the
container (`except: continue`), and a cleaned body shorter than 5
characters skips it as well (`continue`). -/

/-- A container as observed by `parse_blocks`: each structural lookup
either yields data or raises. -/
structure FBBlock where
  linkText : Except Unit String
  spanTexts : List String
  abbrText : Except Unit String

/-- The dict appended to `data` for a successfully parsed container. -/
structure FBCommentData where
  post_url : String
  username : String
  comment : String
  time_raw : Option String
  deriving Repr, DecidableEq

/-- Parsing of one container: `.error` models a raise out of the outer
`try`; `.ok none` models the `len(text) < 5` skip. -/
def parseBlock (url : String) (b : FBBlock) : Except Unit (Option FBCommentData) :=
  match b.linkText with
  | .error e => .error e
  | .ok utext =>
    let username := pyStrip utext
    let text := pyStrip (joinSpace (b.spanTexts.filter (fun s => s ≠ "")))
    if text.length < 5 then .ok none
    else
      let time_raw : Option String :=
        match b.abbrText with
        | .ok t => some t
        | .error _ => none
      .ok (some ⟨url, if username = "" then "Anonymous" else username, text, time_raw⟩)

/-- `parse_blocks(blocks, url)`: the per-container loop whose `try` turns
any raise into `continue`. -/
def parse_blocks : List FBBlock → String → List FBCommentData
  | [], _ => []
  | b :: rest, url =>
    match parseBlock url b with
    | .error _ => parse_blocks rest url
    | .ok none => parse_blocks rest url
    | .ok (some d) => d :: parse_blocks rest url

/-- A container is well formed when its username lookup does not raise. -/
def blockWellFormed (b : FBBlock) : Bool :=
  match b.linkText with
  | .ok _ => true
  | .error _ => false

/-- The cleaned body of a container. -/
def blockBody (b : FBBlock) : String :=
  pyStrip (joinSpace (b.spanTexts.filter (fun s => s ≠ "")))

/-- The `len(text) >= 5` test. -/
def blockLengthOK (b : FBBlock) : Bool :=
  decide (¬ (blockBody b).length < 5)

/-! ## Relative-time conversion

`facebook_scraper.py`, `fb_time_to_hours_from_comment` (lines 78–98):
`re.search(r"\b(\d+)\s*(m|h|d|w|y)\b", text.lower())`, then
m→value/60, h→value, d→value·24, w→value·168, y→value·8760; no match →
`None` (the function returns `Option`, so it cannot raise).

`reddit_scraper.py`, `normalize_time` (lines 252–263): branches on
`unit.startswith`, with no `w` branch at all. -/

/-- Regex word characters `\w` = `[A-Za-z0-9_]`, the class deciding `\b`. -/
def reWordChar (c : Char) : Bool :=
  c.isAlpha || c.isDigit || c = '_'

/-- `\b` holds before a word character iff the preceding character (if any)
is not a word character. -/
def atBoundaryBefore : Option Char → Bool
  | none => true
  | some p => !reWordChar p

/-- Unit alternation `(m|h|d|w|y)` of the Facebook time regex. -/
def fbUnit (c : Char) : Bool :=
  c = 'm' || c = 'h' || c = 'd' || c = 'w' || c = 'y'

/-- Numeric value of a digit run (`int(match.group(1))`). -/
def digitsVal (ds : List Char) : ℕ :=
  ds.foldl (fun n c => 10 * n + (c.toNat - 48)) 0

/-- `re.search(r"\b(\d+)\s*(m|h|d|w|y)\b", ...)`: scan left to right; at a
position preceded by a non-word character (or the start), greedily read
digits, then whitespace, then require a unit letter followed by a word
boundary; on failure restart one character later.  Maximal munch is
faithful: a shorter `\d+` leaves a digit where the unit is required and a
shorter `\s*` leaves whitespace there, so backtracking never helps. -/
def fbSearchAux : Option Char → List Char → Option (ℕ × Char)
  | _, [] => none
  | prev, c :: rest =>
    if atBoundaryBefore prev && c.isDigit then
      let ds := (c :: rest).takeWhile (Char.isDigit ·)
      let r1 := (c :: rest).dropWhile (Char.isDigit ·)
      let r2 := r1.dropWhile (isPySpace ·)
      match r2 with
      | u :: r3 =>
        if fbUnit u && (match r3 with | [] => true | n :: _ => !reWordChar n) then
          some (digitsVal ds, u)
        else fbSearchAux (some c) rest
      | [] => fbSearchAux (some c) rest
    else fbSearchAux (some c) rest

/-- `fb_time_to_hours_from_comment(text)` (string input case; values are
exact rationals where Python uses `/`). -/
def fb_time_to_hours_from_comment (s : String) : Option ℚ :=
  match fbSearchAux none (pyLower s).data with
  | none => none
  | some (v, u) =>
    if u = 'm' then some ((v : ℚ) / 60)
    else if u = 'h' then some ((v : ℚ))
    else if u = 'd' then some ((v : ℚ) * 24)
    else if u = 'w' then some ((v : ℚ) * 168)
    else if u = 'y' then some ((v : ℚ) * 8760)
    else none

/-- `s.startswith(pre)`. -/
def pyStartsWith (s pre : String) : Bool :=
  pre.data.isPrefixOf s.data

/-- `normalize_time(value, unit)` of `reddit_scraper.py` (`value` is
non-negative, coming from the `\d+` group of `META_PATTERN`). -/
def normalize_time (value : ℕ) (unit : String) : Option String :=
  let u := pyLower unit
  if pyStartsWith u "min" then some (toString (max 1 (value / 60)) ++ "h")
  else if pyStartsWith u "h" then some (toString value ++ "h")
  else if pyStartsWith u "d" then some (toString (value * 24) ++ "h")
  else if pyStartsWith u "y" then some (toString value ++ "y")
  else none

/-- Spec-side conversion table of C4: m→value/60, h→value, d→value×24,
w→value×168, y→value×8760 (stated from the spec, to be compared with the
code's converters). -/
def specUnitHours (v : ℕ) (u : Char) : ℚ :=
  if u = 'm' then (v : ℚ) / 60
  else if u = 'h' then (v : ℚ)
  else if u = 'd' then (v : ℚ) * 24
  else if u = 'w' then (v : ℚ) * 168
  else (v : ℚ) * 8760

/-- The ten decimal digit characters. -/
def digitChars : List Char :=
  ['0', '1', '2', '3', '4', '5', '6', '7', '8', '9']

/-- The five lowercase unit characters of the Facebook time regex. -/
def fbUnitChars : List Char :=
  ['m', 'h', 'd', 'w', 'y']

/-! ## Facebook body-cleaning pipeline (`facebook_scraper.py`,
`clean_comment`, lines 123–155)

Each `re.sub(pattern, repl, text)` is embedded as a left-to-right scan that
at each position asks a matcher for the length of a match starting there
(`none` when the pattern does not match at that position); on a match the
matched characters are replaced and scanning resumes after them, otherwise
scanning advances one character.  The matchers below use maximal munch for
`\d+`, `\s+`, `\s*` and `\S+`, which is faithful for these patterns because
the token after each greedy piece can never match a character the greedy
piece gave up (digits are not spaces or unit letters, spaces are not
letters, etc.), so regex backtracking never changes the outcome.  The
matcher also receives the previous character so `\b` can be decided.  The
scan carries fuel (one unit per position) to be structurally recursive;
`length + 1` fuel is always enough since every step consumes at least one
character. -/

def reSubGo (tryMatch : Option Char → List Char → Option ℕ) (repl : List Char) :
    ℕ → Option Char → List Char → List Char
  | 0, _, cs => cs
  | _ + 1, _, [] => []
  | fuel + 1, prev, c :: rest =>
    match tryMatch prev (c :: rest) with
    | some k =>
      repl ++ reSubGo tryMatch repl fuel (((c :: rest).take k).getLast?) ((c :: rest).drop k)
    | none => c :: reSubGo tryMatch repl fuel (some c) rest

/-- `re.sub`: replace every (leftmost, non-overlapping) match. -/
def reSub (tryMatch : Option Char → List Char → Option ℕ) (repl : List Char)
    (cs : List Char) : List Char :=
  reSubGo tryMatch repl (cs.length + 1) none cs

/-- `\b` at the position after the given remainder's start: the next
character must not be a word character (or the string ends). -/
def wordBoundaryAfter : List Char → Bool
  | [] => true
  | n :: _ => !reWordChar n

/-- `https?://\S+`. -/
def matchUrl : Option Char → List Char → Option ℕ := fun _ cs =>
  if cs.take 4 = ['h', 't', 't', 'p'] then
    let k1 := if (cs.drop 4).take 1 = ['s'] then 5 else 4
    let rest1 := cs.drop k1
    if rest1.take 3 = [':', '/', '/'] then
      let body := (rest1.drop 3).takeWhile (fun c => !isPySpace c)
      if body.isEmpty then none else some (k1 + 3 + body.length)
    else none
  else none

/-- `\bLike\b\s*\bLike\b` (IGNORECASE).  The inner `\b\s*\b` forces at
least one whitespace character between the two words. -/
def matchLikeLike : Option Char → List Char → Option ℕ := fun prev cs =>
  if atBoundaryBefore prev = true ∧ (cs.take 4).map asciiLower = ['l', 'i', 'k', 'e'] then
    let sp := (cs.drop 4).takeWhile (isPySpace ·)
    let rest2 := (cs.drop 4).dropWhile (isPySpace ·)
    if sp ≠ [] ∧ (rest2.take 4).map asciiLower = ['l', 'i', 'k', 'e'] ∧
        wordBoundaryAfter (rest2.drop 4) = true then
      some (4 + sp.length + 4)
    else none
  else none

/-- `\s*\bLike\b\s*` (case-sensitive; replaced by one space). -/
def matchStandaloneLike : Option Char → List Char → Option ℕ := fun prev cs =>
  let sp1 := cs.takeWhile (isPySpace ·)
  let rest1 := cs.dropWhile (isPySpace ·)
  if (if sp1.isEmpty then atBoundaryBefore prev = true else True) ∧
      rest1.take 4 = ['L', 'i', 'k', 'e'] ∧ wordBoundaryAfter (rest1.drop 4) = true then
    some (sp1.length + 4 + ((rest1.drop 4).takeWhile (isPySpace ·)).length)
  else none

/-- `\bEdited\b` (IGNORECASE). -/
def matchEdited : Option Char → List Char → Option ℕ := fun prev cs =>
  if atBoundaryBefore prev = true ∧
      (cs.take 6).map asciiLower = ['e', 'd', 'i', 't', 'e', 'd'] ∧
      wordBoundaryAfter (cs.drop 6) = true then
    some 6
  else none

/-- `\b(\d+)\s+\1\b`: a digit run, whitespace, then the very same digit
run again (the backreference matches the exact matched text). -/
def matchDupNumber : Option Char → List Char → Option ℕ := fun prev cs =>
  let ds := cs.takeWhile (Char.isDigit ·)
  let rest1 := cs.dropWhile (Char.isDigit ·)
  let sp := rest1.takeWhile (isPySpace ·)
  let rest2 := rest1.dropWhile (isPySpace ·)
  if atBoundaryBefore prev = true ∧ ds ≠ [] ∧ sp ≠ [] ∧ rest2.take ds.length = ds ∧
      wordBoundaryAfter (rest2.drop ds.length) = true then
    some (ds.length + sp.length + ds.length)
  else none

/-- `·\s*Follow\s*·?\s*Follow` (case-sensitive, no boundaries). -/
def matchFollowFollow : Option Char → List Char → Option ℕ := fun _ cs =>
  match cs with
  | '·' :: rest0 =>
    let sp1 := rest0.takeWhile (isPySpace ·)
    let r1 := rest0.dropWhile (isPySpace ·)
    if r1.take 6 = ['F', 'o', 'l', 'l', 'o', 'w'] then
      let r2 := r1.drop 6
      let sp2 := r2.takeWhile (isPySpace ·)
      let r3 := r2.dropWhile (isPySpace ·)
      let optDot : ℕ × List Char := match r3 with
        | '·' :: r4 => (1, r4)
        | _ => (0, r3)
      let sp3 := optDot.2.takeWhile (isPySpace ·)
      let r5 := optDot.2.dropWhile (isPySpace ·)
      if r5.take 6 = ['F', 'o', 'l', 'l', 'o', 'w'] then
        some (1 + sp1.length + 6 + sp2.length + optDot.1 + sp3.length + 6)
      else none
    else none
  | _ => none

/-- `\bReply\b` (IGNORECASE). -/
def matchReply : Option Char → List Char → Option ℕ := fun prev cs =>
  if atBoundaryBefore prev = true ∧
      (cs.take 5).map asciiLower = ['r', 'e', 'p', 'l', 'y'] ∧
      wordBoundaryAfter (cs.drop 5) = true then
    some 5
  else none

/-- `\s+`. -/
def matchSpacesRun : Option Char → List Char → Option ℕ := fun _ cs =>
  let sp := cs.takeWhile (isPySpace ·)
  if sp.isEmpty then none else some sp.length

/-- The final step of the pipeline: `re.sub(r'\s+', ' ', text).strip()`. -/
def normalizeWhitespace (cs : List Char) : List Char :=
  pyStripChars (reSub matchSpacesRun [' '] cs)

/-- `clean_comment(comment_text)` (string input case; `if not comment_text`
is the empty-string test). -/
def clean_comment (s : String) : String :=
  if s = "" then ""
  else
    let t1 := reSub matchUrl [] s.data
    let t2 := reSub matchLikeLike [] t1
    let t3 := pyStripChars (reSub matchStandaloneLike [' '] t2)
    let t4 := reSub matchEdited [] t3
    let t5 := reSub matchDupNumber [] t4
    let t6 := reSub matchFollowFollow [] t5
    let t7 := reSub matchReply [] t6
    let t8 := t7.map (fun c => if c = '\n' then ' ' else c)
    ⟨normalizeWhitespace t8⟩

/-- The binary relation "not two adjacent whitespace characters". -/
def noTwoSpaces (a b : Char) : Prop :=
  ¬(isPySpace a = true ∧ isPySpace b = true)

/-! ## Reddit reply loop (`reddit_scraper.py`, `__main__`, lines 356–392)

Like the Facebook loop but with one extra step: after generating the reply
and re-navigating, the DOM is re-scanned for a block whose text contains
the author (`if row["author"] and row["author"] in block.text`); only the
first such block is attempted, and the `ReplyAttempt` is appended (then
`break`) whatever the outcome.  A candidate with no matching block reaches
no outcome and is not appended; `blockMatch` abstracts this re-scan. -/
structure RedditRun where
  replies : List ReplyAttempt
  processed : List SComment
  unmatched : List SComment
  skipped : List SComment
  remaining : List SComment
  deriving Repr, DecidableEq

def redditReplyLoop (limit : ℕ) (gen : SComment → String) (postOk : ℕ → Bool)
    (blockMatch : SComment → Bool) :
    List SComment → List String → ℕ → ℕ → RedditRun
  | [], _, _, _ => ⟨[], [], [], [], []⟩
  | row :: rest, replied, count, attempts =>
    if limit ≤ count then ⟨[], [], [], [], row :: rest⟩
    else if row.author ∈ replied then
      let r := redditReplyLoop limit gen postOk blockMatch rest replied count attempts
      { r with skipped := row :: r.skipped }
    else if blockMatch row then
      let reply := gen row
      let success := postOk attempts
      let r :=
        if success then
          redditReplyLoop limit gen postOk blockMatch rest (row.author :: replied)
            (count + 1) (attempts + 1)
        else
          redditReplyLoop limit gen postOk blockMatch rest replied count (attempts + 1)
      { r with replies := ⟨row.author, reply, success⟩ :: r.replies,
               processed := row :: r.processed }
    else
      let r := redditReplyLoop limit gen postOk blockMatch rest replied count attempts
      { r with unmatched := row :: r.unmatched }

/-! ## Resource teardown control flow (C9)

A minimal statement language capturing the teardown-relevant control flow
of the scripts' `main` blocks: primitive steps (tagged by name, raising
when the oracle says so), sequencing, a bounded loop, `try/except`, and
`try/except/finally`.  `exec` returns the primitive steps attempted, in
order, and whether an exception escapes. -/

inductive Stmt where
  | basic : String → Stmt
  | seq : Stmt → Stmt → Stmt
  | forN : ℕ → Stmt → Stmt
  | tryCatch : Stmt → Stmt → Stmt
  | tryCatchFinally : Stmt → Stmt → Stmt → Stmt

/-- `n` iterations of a loop whose body always executes the same way
(`step`): a raising iteration aborts the loop. -/
def repeatRun (step : List String × Bool) : ℕ → List String × Bool
  | 0 => ([], false)
  | n + 1 =>
    if step.2 then step
    else
      let r2 := repeatRun step n
      (step.1 ++ r2.1, r2.2)

/-- Execution under a failure oracle: Python semantics — a raise aborts a
`seq` and a `for` body, is absorbed by `except`, and `finally` always runs
(an exception raised in the handler or the `finally` body escapes). -/
def execGo (fails : String → Bool) : Stmt → List String × Bool
  | .basic t => ([t], fails t)
  | .seq s1 s2 =>
    let r1 := execGo fails s1
    if r1.2 then r1
    else
      let r2 := execGo fails s2
      (r1.1 ++ r2.1, r2.2)
  | .forN n body => repeatRun (execGo fails body) n
  | .tryCatch body handler =>
    let rb := execGo fails body
    if rb.2 then
      let rh := execGo fails handler
      (rb.1 ++ rh.1, rh.2)
    else rb
  | .tryCatchFinally body handler fin =>
    let rb := execGo fails body
    if rb.2 then
      let rh := execGo fails handler
      let rf := execGo fails fin
      (rb.1 ++ rh.1 ++ rf.1, rh.2 || rf.2)
    else
      let rf := execGo fails fin
      (rb.1 ++ rf.1, rf.2)

/-- `instagram_scraper.py` `main` (lines 351–437): the whole pipeline runs
inside `try: … except: log_progress("failed"); sys.exit(1) finally:
driver.quit()`. -/
def igMainStmt (nposts ncands : ℕ) : Stmt :=
  .tryCatchFinally
    (.seq (.basic "setupDriver")
      (.seq (.basic "googleSearch")
        (.seq (.forN nposts (.basic "processPost"))
          (.seq (.forN ncands (.basic "replyCandidate"))
            (.basic "printResult")))))
    (.seq (.basic "logFailed") (.basic "sysExit"))
    (.basic "driverQuit")

/-- `facebook_scraper.py` `__main__` (lines 374–496): no top-level
`try/finally`; only the per-URL loop body is wrapped in `try/except:
continue`, and `driver.quit()` (line 496) is an ordinary statement on the
normal path before the result print. -/
def fbMainStmt (nurls ncands : ℕ) : Stmt :=
  .seq (.basic "setupDriver")
    (.seq (.basic "googleSearch")
      (.seq (.forN nurls (.tryCatch (.basic "processUrl") (.basic "logUrlError")))
        (.seq (.basic "buildDataFrame")
          (.seq (.forN ncands (.basic "replyCandidate"))
            (.seq (.basic "driverQuit") (.basic "printResult"))))))

/-! ## Reddit `json` name resolution (C10)

`reddit_scraper.py` has no top-level `import json`; its only `import json`
is inside `__main__` *after* the reply loop (line 398), yet `log_progress`
(line 56) evaluates `json.dumps(...)`.  The first `log_progress` call of a
run happens at line 111, inside `google_search_reddit_posts`, which
`__main__` calls at line 333 — before any comment extraction (line 338). -/

/-- Global names bound in `reddit_scraper.py` by the time the first
progress event is emitted: the module-level imports (lines 2–12), module
assignments and `def`s (lines 23–322), and the two `__main__` statements
executed before the `google_search_reddit_posts` call (lines 329–330).
`json` is not among them. -/
def redditGlobalsAtFirstEmit : List String :=
  ["uc", "By", "Keys", "WebDriverWait", "EC", "time", "os", "re", "sys", "pd",
   "Groq", "pyperclip", "ActionChains", "argparse",
   "parser", "args", "GROQ_API_KEY", "REPLY_LIMIT", "KEYWORD", "GOOGLE_PAGES",
   "REPLY_DELAY", "SCROLL_ROUNDS", "BASE_DIR", "PROFILE_PATH",
   "log_progress", "groq", "setup_driver", "google_search_reddit_posts",
   "scroll_page", "extract_comments", "generate_reply", "post_reply",
   "META_PATTERN", "REDUNDANT_LINES", "normalize_time", "clean_comment_text",
   "process_reddit_csv", "driver", "wait"]

inductive PyErr where
  | nameError : String → PyErr
  deriving Repr, DecidableEq

/-- `log_progress` evaluates `json.dumps`: a lookup of the global name
`json`, raising `NameError` when it is unbound. -/
def redditLogProgress (globals : List String) : Except PyErr Unit :=
  if "json" ∈ globals then .ok () else .error (.nameError "json")

/-- `google_search_reddit_posts` (lines 79–112): the page loop only
`print`s; the single `log_progress` call (line 111) runs after the loop,
before the links are returned. -/
def googleSearchRedditPosts (globals : List String) (links : List String) :
    Except PyErr (List String) := do
  redditLogProgress globals
  return links

/-- The phase order of the Reddit `__main__` relevant to C10: the Google
search (with its progress emission) runs strictly before comment
extraction; the result is `true` iff extraction is reached. -/
def redditMain (links : List String) : Except PyErr Bool := do
  let _ ← googleSearchRedditPosts redditGlobalsAtFirstEmit links
  return true

/-! ## Lemmas and claim theorems -/

/-! ### Scheduler lemmas -/

theorem successCount_cons_true (u t : String) (rs : List ReplyAttempt) :
    successCount (⟨u, t, true⟩ :: rs) = successCount rs + 1 := by
  simp [successCount, List.countP_cons]

theorem successCount_cons_false (u t : String) (rs : List ReplyAttempt) :
    successCount (⟨u, t, false⟩ :: rs) = successCount rs := by
  simp [successCount, List.countP_cons]

theorem igReplyLoop_invariant (limit : ℕ) (gen : SComment → String) (postOk : ℕ → Bool) :
    ∀ (cs : List SComment) (replied : List String) (count attempts : ℕ), count ≤ limit →
      successCount (igReplyLoop limit gen postOk cs replied count attempts).1 + count ≤ limit ∧
      ((igReplyLoop limit gen postOk cs replied count attempts).2 ≠ [] →
        successCount (igReplyLoop limit gen postOk cs replied count attempts).1 + count = limit) := by
  intro cs
  induction cs with
  | nil =>
    intro replied count attempts hcount
    simp [igReplyLoop, successCount, hcount]
  | cons c rest ih =>
    intro replied count attempts hcount
    by_cases h1 : limit ≤ count
    · simp [igReplyLoop, h1, successCount]
      omega
    · by_cases h2 : c.author ∈ replied
      · simpa [igReplyLoop, h1, h2] using ih replied count attempts hcount
      · by_cases h3 : postOk attempts
        · obtain ⟨ih1, ih2⟩ := ih (c.author :: replied) (count + 1) (attempts + 1) (by omega)
          simp only [igReplyLoop, if_neg h1, if_neg h2, if_pos h3, successCount_cons_true]
          exact ⟨by omega, fun hrem => by have := ih2 hrem; omega⟩
        · obtain ⟨ih1, ih2⟩ := ih replied count (attempts + 1) hcount
          simp only [igReplyLoop, if_neg h1, if_neg h2, if_neg h3, successCount_cons_false]
          exact ⟨by omega, fun hrem => by have := ih2 hrem; omega⟩

theorem liReplyLoop_success_le (limit : ℕ) (gen : SComment → String) (postOk : ℕ → Bool) :
    ∀ (rows : List SComment) (count attempts : ℕ), count ≤ limit →
      successCount (liReplyLoop limit gen postOk rows count attempts) + count ≤ limit := by
  intro rows
  induction rows with
  | nil =>
    intro count attempts h
    simpa [liReplyLoop, successCount] using h
  | cons row rest ih =>
    intro count attempts hcount
    by_cases h1 : count < limit
    · by_cases h2 : postOk attempts
      · have := ih (count + 1) (attempts + 1) (by omega)
        simp only [liReplyLoop, if_pos h1, if_pos h2, successCount_cons_true]
        omega
      · have := ih count (attempts + 1) hcount
        simp only [liReplyLoop, if_pos h1, if_neg h2, successCount_cons_false]
        omega
    · have := ih count attempts hcount
      simp only [liReplyLoop, if_neg h1]
      exact this

/-- C2: for every comment list, reply limit, generation oracle and post
oracle, the number of `success=true` entries produced by the engagement
scheduler never exceeds the reply limit; the Instagram loop stops while
candidates remain exactly when the success count has reached the limit
(otherwise it runs until the candidate list is exhausted), and the LinkedIn
loop — which guards each candidate instead of breaking — obeys the same
bound. -/
theorem C2_success_bound_and_termination (comments rows : List SComment) (limit : ℕ)
    (gen : SComment → String) (postOk : ℕ → Bool) :
    successCount (igReplyLoop limit gen postOk comments [] 0 0).1 ≤ limit ∧
    ((igReplyLoop limit gen postOk comments [] 0 0).2 ≠ [] →
      successCount (igReplyLoop limit gen postOk comments [] 0 0).1 = limit) ∧
    successCount (liReplyLoop limit gen postOk rows 0 0) ≤ limit := by
  have h := igReplyLoop_invariant limit gen postOk comments [] 0 0 (Nat.zero_le _)
  have hli := liReplyLoop_success_le limit gen postOk rows 0 0 (Nat.zero_le _)
  refine ⟨by simpa using h.1, fun hrem => by simpa using h.2 hrem, by simpa using hli⟩

/-- When every post action succeeds, the Instagram loop replies exactly to
the author-deduplicated prefix. -/
theorem igReplyLoop_allSuccess (limit : ℕ) (gen : SComment → String) :
    ∀ (cs : List SComment) (seen : List String) (count attempts : ℕ),
      (igReplyLoop limit gen (fun _ => true) cs seen count attempts).1 =
        ((specDedupByAuthor seen cs).take (limit - count)).map
          (fun c => ⟨c.author, gen c, true⟩)
  | [], seen, count, attempts => by simp [igReplyLoop, specDedupByAuthor]
  | c :: rest, seen, count, attempts => by
      by_cases h1 : limit ≤ count
      · have : limit - count = 0 := by omega
        simp [igReplyLoop, h1, this]
      · by_cases h2 : c.author ∈ seen
        · have ih := igReplyLoop_allSuccess limit gen rest seen count attempts
          simpa [igReplyLoop, h1, h2, specDedupByAuthor] using ih
        · have ih := igReplyLoop_allSuccess limit gen rest (c.author :: seen)
            (count + 1) (attempts + 1)
          have htake : limit - count = (limit - (count + 1)) + 1 := by omega
          simp [igReplyLoop, h1, h2, specDedupByAuthor, htake, ih]

theorem specDedupByAuthor_nodup :
    ∀ (cs : List SComment) (seen : List String),
      ((specDedupByAuthor seen cs).map (fun c => c.author)).Nodup ∧
      ∀ a ∈ (specDedupByAuthor seen cs).map (fun c => c.author), a ∉ seen := by
  intro cs
  induction cs with
  | nil => intro seen; simp [specDedupByAuthor]
  | cons c rest ih =>
    intro seen
    by_cases h : c.author ∈ seen
    · simpa [specDedupByAuthor, h] using ih seen
    · have ihc := ih (c.author :: seen)
      refine ⟨?_, ?_⟩
      · simp only [specDedupByAuthor, if_neg h, List.map_cons, List.nodup_cons]
        exact ⟨fun hmem => (ihc.2 c.author hmem) (List.mem_cons_self _ _), ihc.1⟩
      · intro a ha
        simp only [specDedupByAuthor, if_neg h, List.map_cons, List.mem_cons] at ha
        rcases ha with rfl | ha
        · exact h
        · intro hseen
          exact (ihc.2 a ha) (List.mem_cons_of_mem _ hseen)

/-- C1 (amended): the Instagram scheduler records an author only when the
post action succeeds, so with an always-successful post action it makes
exactly one attempt per distinct author, using the author's first
occurrence, and no two entries in the replies list share a username; a
failed attempt leaves the author eligible again, and the LinkedIn variant
performs no author deduplication at all. -/
theorem C1_amended_dedup_on_success (comments : List SComment) (limit : ℕ)
    (gen : SComment → String) :
    (igReplyLoop limit gen (fun _ => true) comments [] 0 0).1 =
      ((specDedupByAuthor [] comments).take limit).map
        (fun c => ⟨c.author, gen c, true⟩) ∧
    ((igReplyLoop limit gen (fun _ => true) comments [] 0 0).1.map
      (fun r => r.username)).Nodup := by
  have heq := igReplyLoop_allSuccess limit gen comments [] 0 0
  have hnodup := (specDedupByAuthor_nodup comments []).1
  refine ⟨by simpa using heq, ?_⟩
  rw [heq]
  have : (((specDedupByAuthor [] comments).take (limit - 0)).map
      (fun c => (⟨c.author, gen c, true⟩ : ReplyAttempt))).map (fun r => r.username) =
      ((specDedupByAuthor [] comments).map (fun c => c.author)).take (limit - 0) := by
    rw [List.map_map, ← List.map_take]
    rfl
  rw [this]
  exact hnodup.sublist (List.take_sublist _ _)

/-- C1 (counterexample): the LinkedIn reply loop (lines 197–207 of
`linkedin_scraper.py`) has no author-deduplication set.  On the spec's own
example `[(A,"x"), (A,"y"), (B,"z")]` with `replyLimit = 2` and every post
succeeding, it attempts A twice and never reaches B, so two entries of the
replies list share the username "A" — refuting "at most one ReplyAttempt
per distinct author" and "exactly one attempt for A and one for B". -/
theorem C1_counterexample_linkedin_duplicate_author :
    (liReplyLoop 2 (fun c => c.text) (fun _ => true)
        [⟨"A", "x"⟩, ⟨"A", "y"⟩, ⟨"B", "z"⟩] 0 0).map (fun r => r.username) =
      ["A", "A"] ∧
    ¬ ((liReplyLoop 2 (fun c => c.text) (fun _ => true)
        [⟨"A", "x"⟩, ⟨"A", "y"⟩, ⟨"B", "z"⟩] 0 0).map (fun r => r.username)).Nodup := by
  constructor
  · rfl
  · decide

/-- Ghost-trace invariant of the Facebook reply loop: the replies list has
exactly one entry, in order, per processed candidate (so skipped candidates
contribute nothing), and every candidate is classified exactly once as
processed, skipped, or never examined. -/
theorem fbReplyLoop_trace (limit : ℕ) (gen : SComment → String) (postOk : ℕ → Bool) :
    ∀ (cs : List SComment) (replied : List String) (count attempts : ℕ),
      ((fbReplyLoop limit gen postOk cs replied count attempts).replies.map
          (fun r => r.username) =
        (fbReplyLoop limit gen postOk cs replied count attempts).processed.map
          (fun c => c.author)) ∧
      ((fbReplyLoop limit gen postOk cs replied count attempts).processed.length +
        (fbReplyLoop limit gen postOk cs replied count attempts).skipped.length +
        (fbReplyLoop limit gen postOk cs replied count attempts).remaining.length =
        cs.length) := by
  intro cs
  induction cs with
  | nil => intro replied count attempts; simp [fbReplyLoop]
  | cons row rest ih =>
    intro replied count attempts
    by_cases h1 : limit ≤ count
    · simp [fbReplyLoop, h1]
    · by_cases h2 : row.author ∈ replied
      · obtain ⟨ih1, ih2⟩ := ih replied count attempts
        simp only [fbReplyLoop, if_neg h1, if_pos h2]
        refine ⟨ih1, ?_⟩
        simp only [List.length_cons]
        omega
      · by_cases h3 : postOk attempts
        · obtain ⟨ih1, ih2⟩ := ih (row.author :: replied) (count + 1) (attempts + 1)
          simp only [fbReplyLoop, if_neg h1, if_neg h2, if_pos h3, List.map_cons,
            List.length_cons]
          exact ⟨by rw [ih1], by omega⟩
        · obtain ⟨ih1, ih2⟩ := ih replied count (attempts + 1)
          simp only [fbReplyLoop, if_neg h1, if_neg h2, if_neg h3, List.map_cons,
            List.length_cons]
          exact ⟨by rw [ih1], by omega⟩

theorem skipBullets_length_le (l : List String) :
    (skipBullets l).length ≤ l.length := by
  induction l with
  | nil => simp [skipBullets]
  | cons x rest ih =>
    by_cases h : pyStrip x = "•" || pyStrip x = ""
    · simp only [skipBullets, if_pos h]
      exact le_trans ih (Nat.le_succ _)
    · simp [skipBullets, h]

theorem igGatherBody_length_le (l : List String) :
    (igGatherBody l).2.length ≤ l.length := by
  induction l with
  | nil => simp [igGatherBody]
  | cons x rest ih =>
    by_cases h1 : (igUsernameMatch x && !igIsNoise x) = true
    · simp [igGatherBody, h1]
    · by_cases h2 : igTimeMatch x = true
      · simp [igGatherBody, h1, h2]
      · by_cases h3 : (igIsNoise x || igLikesLine x) = true
        · simp only [igGatherBody, if_neg h1, if_neg h2, if_pos h3]
          exact le_trans ih (Nat.le_succ _)
        · simp only [igGatherBody, if_neg h1, if_neg h2, if_neg h3]
          exact le_trans ih (Nat.le_succ _)

/-- Any fuel larger than the fragment count computes the same result: the
fuel in `parseIG` is an artifact of the embedding, not a semantic bound. -/
theorem parseIGGo_fuel_stable :
    ∀ (fuel fuel' : ℕ) (cs : List String), cs.length < fuel → cs.length < fuel' →
      parseIGGo fuel cs = parseIGGo fuel' cs := by
  intro fuel
  induction fuel with
  | zero => intro fuel' cs h; omega
  | succ fuel ih =>
    intro fuel' cs hf hf'
    match fuel', cs with
    | 0, _ => omega
    | fuel' + 1, [] => rfl
    | fuel' + 1, x :: rest =>
      simp only [parseIGGo]
      by_cases h1 : igUsernameMatch x && !igIsNoise x
      · simp only [if_pos h1]
        match hsb : skipBullets rest with
        | [] => rfl
        | t :: rest2 =>
          have hsb_len : (t :: rest2).length ≤ rest.length := by
            rw [← hsb]; exact skipBullets_length_le rest
          by_cases h2 : igTimeMatch t
          · simp only [if_pos h2]
            have hg : (igGatherBody rest2).2.length ≤ rest2.length :=
              igGatherBody_length_le rest2
            have hlt : (igGatherBody rest2).2.length < fuel := by
              simp only [List.length_cons] at hsb_len hf
              omega
            have hlt' : (igGatherBody rest2).2.length < fuel' := by
              simp only [List.length_cons] at hsb_len hf'
              omega
            by_cases h3 : pyStrip (joinSpace (igGatherBody rest2).1) = ""
            · simp only [if_pos h3]
              exact ih fuel' _ hlt hlt'
            · simp only [if_neg h3]
              rw [ih fuel' _ hlt hlt']
          · simp only [if_neg h2]
            have hlt : (t :: rest2).length < fuel := by
              simp only [List.length_cons] at hsb_len hf ⊢
              omega
            have hlt' : (t :: rest2).length < fuel' := by
              simp only [List.length_cons] at hsb_len hf' ⊢
              omega
            exact ih fuel' _ hlt hlt'
      · simp only [if_neg h1]
        exact ih fuel' rest (by simp at hf; omega) (by simp at hf'; omega)

theorem igUsernameMatch_ne_empty {s : String} (h : igUsernameMatch s = true) :
    s ≠ "" := by
  intro hs
  subst hs
  simp [igUsernameMatch] at h

/-- Every record emitted by the Instagram tokenizer has a non-empty author
(it matched the non-empty handle pattern), a time fragment that matched the
timestamp pattern, and a non-empty body. -/
theorem parseIGGo_emitted_invariant :
    ∀ (fuel : ℕ) (raws : List String), ∀ c ∈ parseIGGo fuel raws,
      c.author ≠ "" ∧ igTimeMatch c.time = true ∧ c.text ≠ "" := by
  intro fuel
  induction fuel with
  | zero => intro raws c hc; simp [parseIGGo] at hc
  | succ fuel ih =>
    intro raws c hc
    match raws with
    | [] => simp [parseIGGo] at hc
    | x :: rest =>
      simp only [parseIGGo] at hc
      by_cases h1 : (igUsernameMatch x && !igIsNoise x) = true
      · rw [if_pos h1] at hc
        revert hc
        match hsb : skipBullets rest with
        | [] => intro hc; simp at hc
        | t :: rest2 =>
          intro hc
          dsimp only at hc
          by_cases h2 : igTimeMatch t = true
          · rw [if_pos h2] at hc
            by_cases h3 : pyStrip (joinSpace (igGatherBody rest2).1) = ""
            · rw [if_pos h3] at hc
              exact ih _ c hc
            · rw [if_neg h3] at hc
              rcases List.mem_cons.mp hc with rfl | hmem
              · refine ⟨?_, h2, h3⟩
                have hu : igUsernameMatch x = true := by
                  have h1' := h1
                  simp only [Bool.and_eq_true] at h1'
                  exact h1'.1
                exact igUsernameMatch_ne_empty hu
              · exact ih _ c hmem
          · rw [if_neg h2] at hc
            exact ih _ c hc
      · rw [if_neg h1] at hc
        exact ih _ c hc

/-- C3 (amended): the Instagram tokenizer only emits records with a
non-empty author, a fragment matching the timestamp pattern, and a
non-empty body; it enforces no 5-character minimum (that check exists only
in the container-based scrapers). -/
theorem C3_amended_tokenizer_invariant (raws : List String) :
    ∀ c ∈ parseIG raws, c.author ≠ "" ∧ igTimeMatch c.time = true ∧ c.text ≠ "" :=
  parseIGGo_emitted_invariant (raws.length + 1) raws

/-- C3 (witness): the invariant applied to the record emitted on the
concrete fragment sequence `["bob", "7w", "hi!"]`. -/
theorem C3_amended_tokenizer_invariant_witness :
    (⟨"bob", "7w", "hi!"⟩ : IGComment).author ≠ "" ∧
    igTimeMatch (⟨"bob", "7w", "hi!"⟩ : IGComment).time = true ∧
    (⟨"bob", "7w", "hi!"⟩ : IGComment).text ≠ "" :=
  C3_amended_tokenizer_invariant ["bob", "7w", "hi!"] ⟨"bob", "7w", "hi!"⟩
    (by rw [show parseIG ["bob", "7w", "hi!"] = [⟨"bob", "7w", "hi!"⟩] from rfl]
        exact List.mem_singleton.mpr rfl)

/-- C3 (counterexample): on the fragment sequence `["bob", "7w", "hi!"]` the
tokenizer emits a record whose body `"hi!"` has length 3 < 5, refuting the
claim that every emitted body is at least 5 characters long after
cleaning. -/
theorem C3_counterexample_short_body :
    parseIG ["bob", "7w", "hi!"] = [⟨"bob", "7w", "hi!"⟩] ∧
    ("hi!".length < 5) := by
  constructor
  · rfl
  · decide

theorem pairwise_le_append_of_bounds {l1 l2 : List ℕ} (m : ℕ)
    (h1 : l1.Pairwise (· ≤ ·)) (h2 : l2.Pairwise (· ≤ ·))
    (hb1 : ∀ x ∈ l1, x ≤ m) (hb2 : ∀ x ∈ l2, m ≤ x) :
    (l1 ++ l2).Pairwise (· ≤ ·) :=
  List.pairwise_append.mpr
    ⟨h1, h2, fun a ha b hb => le_trans (hb1 a ha) (hb2 b hb)⟩

theorem pairwise_le_map_range (n : ℕ) (f : ℕ → ℕ)
    (hf : ∀ a b, a ≤ b → f a ≤ f b) :
    ((List.range n).map f).Pairwise (· ≤ ·) :=
  List.Pairwise.map f (fun a b hab => hf a b (le_of_lt hab))
    (List.pairwise_lt_range n)

theorem div_mul_le_of_lt {p n c : ℕ} (h : p < n) : p * c / n ≤ c := by
  have h1 : p * c ≤ n * c := Nat.mul_le_mul_right c (le_of_lt h)
  have h2 : p * c / n ≤ n * c / n := Nat.div_le_div_right h1
  rwa [Nat.mul_div_cancel_left c (by omega : 0 < n)] at h2

/-- C8 (amended): from the second emitted event onward the progress values
are monotonically non-decreasing, and the final event's progress is 100 on
a successful run; but the very first searching event (progress
`int((0/pages)*30) = 0`) drops below the initial `running` event's 5, so
the full sequence is not monotone (see the counterexample). -/
theorem C8_amended_progress_monotone_after_first (pages nposts successes lim : ℕ)
    (hposts : nposts ≤ 3) (hsucc : successes ≤ lim) :
    ((igProgressTrace pages nposts successes lim).tail).Pairwise (· ≤ ·) ∧
    (igProgressTrace pages nposts successes lim).getLast? = some 100 := by
  constructor
  · show ((((List.range pages).map (fun p => p * 30 / pages)) ++ [30]
      ++ ((List.range nposts).map (fun i => 30 + i * 40 / 3)) ++ [70]
      ++ ((List.range successes).map (fun k => 70 + (k + 1) * 30 / lim))
      ++ [100]).Pairwise (· ≤ ·))
    have hS1 : ∀ x ∈ (List.range pages).map (fun p => p * 30 / pages), x ≤ 30 := by
      intro x hx
      obtain ⟨p, hp, rfl⟩ := List.mem_map.mp hx
      exact div_mul_le_of_lt (List.mem_range.mp hp)
    have hS3 : ∀ x ∈ (List.range nposts).map (fun i => 30 + i * 40 / 3),
        30 ≤ x ∧ x ≤ 70 := by
      intro x hx
      obtain ⟨i, hi, rfl⟩ := List.mem_map.mp hx
      have hi3 : i < 3 := lt_of_lt_of_le (List.mem_range.mp hi) hposts
      have : i * 40 / 3 ≤ 40 := div_mul_le_of_lt hi3
      omega
    have hS5 : ∀ x ∈ (List.range successes).map (fun k => 70 + (k + 1) * 30 / lim),
        70 ≤ x ∧ x ≤ 100 := by
      intro x hx
      obtain ⟨k, hk, rfl⟩ := List.mem_map.mp hx
      have hklim : k < lim := lt_of_lt_of_le (List.mem_range.mp hk) hsucc
      have h1 : (k + 1) * 30 ≤ lim * 30 := Nat.mul_le_mul_right 30 (by omega)
      have h2 : (k + 1) * 30 / lim ≤ lim * 30 / lim := Nat.div_le_div_right h1
      rw [Nat.mul_div_cancel_left 30 (by omega : 0 < lim)] at h2
      exact ⟨Nat.le_add_right _ _, by simpa using Nat.add_le_add_left h2 70⟩
    have p1 : ((List.range pages).map (fun p => p * 30 / pages)).Pairwise (· ≤ ·) :=
      pairwise_le_map_range _ _
        (fun a b hab => Nat.div_le_div_right (Nat.mul_le_mul_right 30 hab))
    have p3 : ((List.range nposts).map (fun i => 30 + i * 40 / 3)).Pairwise (· ≤ ·) :=
      pairwise_le_map_range _ _
        (fun a b hab => by
          have := Nat.div_le_div_right (c := 3) (Nat.mul_le_mul_right 40 hab)
          omega)
    have p5 : ((List.range successes).map
        (fun k => 70 + (k + 1) * 30 / lim)).Pairwise (· ≤ ·) :=
      pairwise_le_map_range _ _
        (fun a b hab => by
          have h := Nat.div_le_div_right (c := lim) (Nat.mul_le_mul_right 30 (by omega :
            a + 1 ≤ b + 1))
          exact Nat.add_le_add_left h 70)
    apply pairwise_le_append_of_bounds 100
    · apply pairwise_le_append_of_bounds 70
      · apply pairwise_le_append_of_bounds 70
        · apply pairwise_le_append_of_bounds 30
          · apply pairwise_le_append_of_bounds 30 p1 (by simp) hS1 (by simp)
          · exact p3
          · intro x hx
            rcases List.mem_append.mp hx with h | h
            · exact le_trans (hS1 x h) (by norm_num)
            · simp at h; omega
          · exact fun x hx => (hS3 x hx).1
        · simp
        · intro x hx
          rcases List.mem_append.mp hx with h | h
          · rcases List.mem_append.mp h with h' | h'
            · exact le_trans (hS1 x h') (by norm_num)
            · simp at h'; omega
          · exact (hS3 x h).2
        · simp
      · exact p5
      · intro x hx
        rcases List.mem_append.mp hx with h | h
        · rcases List.mem_append.mp h with h' | h'
          · rcases List.mem_append.mp h' with h'' | h''
            · exact le_trans (hS1 x h'') (by norm_num)
            · simp at h''; omega
          · exact (hS3 x h').2
        · simp at h; omega
      · exact fun x hx => (hS5 x hx).1
    · simp
    · intro x hx
      rcases List.mem_append.mp hx with h | h
      · rcases List.mem_append.mp h with h' | h'
        · rcases List.mem_append.mp h' with h'' | h''
          · rcases List.mem_append.mp h'' with h3 | h3
            · exact le_trans (hS1 x h3) (by norm_num)
            · simp at h3; omega
          · exact le_trans (hS3 x h'').2 (by norm_num)
        · simp at h'; omega
      · exact (hS5 x h).2
    · simp
  · show (5 :: (_ ++ [100])).getLast? = some 100
    rw [← List.cons_append]
    exact List.getLast?_concat _

/-- C8 (witness): the amended theorem at `pages = 1`, `nposts = 1`,
`successes = 1`, `lim = 1`. -/
theorem C8_amended_progress_monotone_after_first_witness :
    (((igProgressTrace 1 1 1 1).tail).Pairwise (· ≤ ·) ∧
      (igProgressTrace 1 1 1 1).getLast? = some 100) :=
  C8_amended_progress_monotone_after_first 1 1 1 1 (by decide) (by decide)

/-- C8 (counterexample): with one Google page the emitted progress sequence
begins `5, 0, …` — the first searching event's progress
`int((0/1)*30) = 0` is less than the preceding event's 5 — so the sequence
of progress values is not monotonically non-decreasing. -/
theorem C8_counterexample_progress_dips :
    igProgressTrace 1 1 1 1 = [5, 0, 30, 30, 70, 100, 100] ∧
    ¬ (igProgressTrace 1 1 1 1).Pairwise (· ≤ ·) := by
  constructor
  · rfl
  · decide

/-- C7: `parse_blocks` is total (a raising container is skipped, never
aborting the batch): it equals the filterMap of the per-container parse, so
a malformed container contributes nothing and does not stop later
containers, and the number of records produced is exactly the number of
well-formed, length-passing containers. -/
theorem C7_malformed_containers_skipped (blocks : List FBBlock) (url : String) :
    parse_blocks blocks url =
      blocks.filterMap (fun b => ((parseBlock url b).toOption).join) ∧
    (parse_blocks blocks url).length =
      (blocks.filter (fun b => blockWellFormed b && blockLengthOK b)).length := by
  induction blocks with
  | nil => exact ⟨rfl, rfl⟩
  | cons b rest ih =>
    have hcond : (match parseBlock url b with
        | .error _ => false
        | .ok none => false
        | .ok (some _) => true) = (blockWellFormed b && blockLengthOK b) := by
      rw [parseBlock, blockWellFormed, blockLengthOK, blockBody]
      match b.linkText with
      | .error e => rfl
      | .ok utext =>
        dsimp only
        by_cases hlen :
            (pyStrip (joinSpace (b.spanTexts.filter (fun s => s ≠ "")))).length < 5
        · rw [if_pos hlen, Bool.true_and, decide_eq_false (not_not_intro hlen)]
        · rw [if_neg hlen, Bool.true_and, decide_eq_true hlen]
    match hpb : parseBlock url b with
    | .error e =>
      rw [hpb] at hcond
      refine ⟨?_, ?_⟩
      · have hfb : ((parseBlock url b).toOption).join = none := by rw [hpb]; rfl
        simp only [parse_blocks, hpb]
        simp only [List.filterMap_cons, hfb]
        exact ih.1
      · simp only [parse_blocks, hpb, List.filter_cons, ← hcond]
        simpa using ih.2
    | .ok none =>
      rw [hpb] at hcond
      refine ⟨?_, ?_⟩
      · have hfb : ((parseBlock url b).toOption).join = none := by rw [hpb]; rfl
        simp only [parse_blocks, hpb]
        simp only [List.filterMap_cons, hfb]
        exact ih.1
      · simp only [parse_blocks, hpb, List.filter_cons, ← hcond]
        simpa using ih.2
    | .ok (some d) =>
      rw [hpb] at hcond
      refine ⟨?_, ?_⟩
      · have hfb : ((parseBlock url b).toOption).join = some d := by rw [hpb]; rfl
        simp only [parse_blocks, hpb]
        simp only [List.filterMap_cons, hfb]
        rw [ih.1]
      · simp only [parse_blocks, hpb, List.filter_cons, ← hcond]
        simpa using ih.2

theorem digitChar_facts {c : Char} (h : c ∈ digitChars) :
    asciiLower c = c ∧ Char.isDigit c = true := by
  fin_cases h <;> exact ⟨by decide, by decide⟩

theorem fbUnitChar_facts {u : Char} (h : u ∈ fbUnitChars) :
    asciiLower u = u ∧ Char.isDigit u = false ∧ isPySpace u = false ∧
      fbUnit u = true := by
  fin_cases h <;> exact ⟨by decide, by decide, by decide, by decide⟩

theorem takeWhile_append_all {α : Type} (p : α → Bool) :
    ∀ (l1 l2 : List α), (∀ a ∈ l1, p a = true) →
      (l1 ++ l2).takeWhile p = l1 ++ l2.takeWhile p := by
  intro l1
  induction l1 with
  | nil => intro l2 h; simp
  | cons a l1 ih =>
    intro l2 h
    have ha : p a = true := h a (List.mem_cons_self _ _)
    simp only [List.cons_append, List.takeWhile_cons_of_pos ha]
    rw [ih l2 (fun b hb => h b (List.mem_cons_of_mem _ hb))]

theorem dropWhile_append_all {α : Type} (p : α → Bool) :
    ∀ (l1 l2 : List α), (∀ a ∈ l1, p a = true) →
      (l1 ++ l2).dropWhile p = l2.dropWhile p := by
  intro l1
  induction l1 with
  | nil => intro l2 h; simp
  | cons a l1 ih =>
    intro l2 h
    have ha : p a = true := h a (List.mem_cons_self _ _)
    simp only [List.cons_append, List.dropWhile_cons_of_pos ha]
    exact ih l2 (fun b hb => h b (List.mem_cons_of_mem _ hb))

/-- C4 (amended): the Facebook converter does follow the claimed table — on
any digit run followed by a unit letter it returns exactly
m→value/60, h→value, d→value×24, w→value×168, y→value×8760 — and whenever
the regex search finds nothing it returns `None` (and, being total, never
raises).  The Reddit `normalize_time` does not follow the table (see the
counterexample). -/
theorem C4_amended_fb_conversion_table :
    (∀ (ds : List Char) (u : Char), ds ≠ [] → (∀ c ∈ ds, c ∈ digitChars) →
      u ∈ fbUnitChars →
      fb_time_to_hours_from_comment ⟨ds ++ [u]⟩ =
        some (specUnitHours (digitsVal ds) u)) ∧
    (∀ s : String, fbSearchAux none (pyLower s).data = none →
      fb_time_to_hours_from_comment s = none) := by
  constructor
  · intro ds u hne hds hu
    obtain ⟨hlu, hdu, hsu, hfu⟩ := fbUnitChar_facts hu
    have hdigit : ∀ c ∈ ds, Char.isDigit c = true :=
      fun c hc => (digitChar_facts (hds c hc)).2
    have hmap : (pyLower ⟨ds ++ [u]⟩).data = ds ++ [u] := by
      show (ds ++ [u]).map asciiLower = ds ++ [u]
      rw [List.map_append]
      congr 1
      · have : ∀ c ∈ ds, asciiLower c = c :=
          fun c hc => (digitChar_facts (hds c hc)).1
        calc ds.map asciiLower = ds.map id := List.map_congr_left this
        _ = ds := List.map_id ds
      · simp [hlu]
    rw [fb_time_to_hours_from_comment, hmap]
    obtain ⟨d, ds', rfl⟩ : ∃ d ds', ds = d :: ds' := by
      cases ds with
      | nil => exact absurd rfl hne
      | cons d ds' => exact ⟨d, ds', rfl⟩
    have hboundary : (atBoundaryBefore none && Char.isDigit d) = true := by
      simp [atBoundaryBefore, hdigit d (List.mem_cons_self _ _)]
    have htake : ((d :: ds') ++ [u]).takeWhile (Char.isDigit ·) = d :: ds' := by
      rw [takeWhile_append_all _ _ _ (by simpa using hdigit)]
      simp [List.takeWhile_cons_of_neg, hdu]
    have hdrop : ((d :: ds') ++ [u]).dropWhile (Char.isDigit ·) = [u] := by
      rw [dropWhile_append_all _ _ _ (by simpa using hdigit)]
      simp [List.dropWhile_cons_of_neg, hdu]
    have hdrop2 : ([u]).dropWhile (isPySpace ·) = [u] := by
      simp [List.dropWhile_cons_of_neg, hsu]
    simp only [List.cons_append] at htake hdrop
    simp only [fbSearchAux, hboundary, if_true, List.append_eq]
    rw [htake, hdrop, hdrop2]
    dsimp only
    rw [if_pos (by simp [hfu])]
    fin_cases hu <;> simp [specUnitHours]
  · intro s h
    simp [fb_time_to_hours_from_comment, h]

/-- C4 (witness): the theorem applied at `"45m"` (digits `['4','5']`, unit
`'m'`) gives 45/60 = 0.75 hours. -/
theorem C4_amended_fb_conversion_table_witness :
    fb_time_to_hours_from_comment ⟨['4', '5'] ++ ['m']⟩ = some ((3 : ℚ) / 4) := by
  have h := C4_amended_fb_conversion_table.1 ['4', '5'] 'm'
    (by decide) (by decide) (by decide)
  rw [h]
  have hv : digitsVal ['4', '5'] = 45 := by decide
  rw [hv]
  norm_num [specUnitHours]

/-- C4 (counterexample): the Reddit `normalize_time` does not implement the
claimed table: a 45-minute unit yields `"1h"` (the claim requires 0.75
hours: `max(1, 45 // 60) = 1`), a `w` unit yields `None` (the claim
requires value×168), and a `y` unit yields a `"…y"` string, not
value×8760 hours. -/
theorem C4_counterexample_reddit_normalize_time :
    normalize_time 45 "minutes" = some "1h" ∧
    normalize_time 2 "w" = none ∧
    normalize_time 1 "y" = some "1y" := by
  refine ⟨?_, ?_, ?_⟩ <;> decide

/-! ### Whitespace-normalization lemmas (for C6) -/

theorem drop_length_takeWhile {α : Type} (p : α → Bool) (l : List α) :
    l.drop (l.takeWhile p).length = l.dropWhile p := by
  induction l with
  | nil => rfl
  | cons a l ih =>
    by_cases h : p a = true
    · simp [List.takeWhile_cons_of_pos h, List.dropWhile_cons_of_pos h, ih]
    · simp [List.takeWhile_cons_of_neg h, List.dropWhile_cons_of_neg h]

theorem head?_dropWhile_false {α : Type} (p : α → Bool) (l : List α) :
    ∀ c ∈ (l.dropWhile p).head?, p c = false := by
  intro c hc
  have h := List.head?_dropWhile_not p l
  rw [Option.mem_def] at hc
  rw [hc] at h
  exact h

theorem spacesRun_go_normalizes :
    ∀ (fuel : ℕ) (cs : List Char) (prev : Option Char), cs.length < fuel →
      (∀ c ∈ reSubGo matchSpacesRun [' '] fuel prev cs, isPySpace c = true → c = ' ') ∧
      List.Chain' noTwoSpaces (reSubGo matchSpacesRun [' '] fuel prev cs) ∧
      (reSubGo matchSpacesRun [' '] fuel prev cs).head? =
        cs.head?.map (fun c => if isPySpace c then ' ' else c) := by
  intro fuel
  induction fuel with
  | zero => intro cs prev h; omega
  | succ fuel ih =>
    intro cs prev h
    match cs with
    | [] => simp [reSubGo]
    | c :: rest =>
      by_cases hc : isPySpace c = true
      · have hsp : (c :: rest).takeWhile (isPySpace ·) =
            c :: rest.takeWhile (isPySpace ·) := List.takeWhile_cons_of_pos hc
        have hm : matchSpacesRun prev (c :: rest) =
            some ((c :: rest).takeWhile (isPySpace ·)).length := by
          rw [matchSpacesRun]
          simp only [hsp]
          simp
        have hdropeq : (c :: rest).drop ((c :: rest).takeWhile (isPySpace ·)).length =
            (c :: rest).dropWhile (isPySpace ·) := drop_length_takeWhile _ _
        have hlen : ((c :: rest).dropWhile (isPySpace ·)).length < fuel := by
          have h1 : ((c :: rest).dropWhile (isPySpace ·)).length ≤ rest.length := by
            rw [List.dropWhile_cons_of_pos hc]
            exact (List.dropWhile_sublist _).length_le
          simp only [List.length_cons] at h
          omega
        obtain ⟨m1, m2, m3⟩ := ih ((c :: rest).dropWhile (isPySpace ·)) _ hlen
        simp only [reSubGo, hm, hdropeq]
        refine ⟨?_, ?_, ?_⟩
        · intro c' hc'
          rcases List.mem_append.mp hc' with h' | h'
          · intro _
            simpa using h'
          · exact m1 c' h'
        · rw [List.singleton_append, List.chain'_cons']
          refine ⟨?_, m2⟩
          intro y hy
          rw [m3] at hy
          match hD : ((c :: rest).dropWhile (isPySpace ·)).head? with
          | none => rw [hD] at hy; simp at hy
          | some d =>
            have hd : isPySpace d = false := head?_dropWhile_false _ _ d hD
            rw [hD] at hy
            simp only [Option.map_some', Option.mem_def, Option.some.injEq] at hy
            have hyd : y = d := by
              rw [← hy, if_neg (by simp [hd])]
            subst hyd
            intro hcontra
            exact absurd hcontra.2 (by simp [hd])
        · simp [hc]
      · have hm : matchSpacesRun prev (c :: rest) = none := by
          rw [matchSpacesRun]
          simp only [List.takeWhile_cons_of_neg (by simpa using hc)]
          simp
        have hlen : rest.length < fuel := by
          simp only [List.length_cons] at h; omega
        obtain ⟨m1, m2, m3⟩ := ih rest (some c) hlen
        simp only [reSubGo, hm]
        refine ⟨?_, ?_, ?_⟩
        · intro c' hc'
          rcases List.mem_cons.mp hc' with rfl | h'
          · intro hcs; exact absurd hcs hc
          · exact m1 c' h'
        · rw [List.chain'_cons']
          refine ⟨?_, m2⟩
          intro y _
          intro hcontra
          exact absurd hcontra.1 hc
        · simp [hc]

theorem spacesRun_go_id :
    ∀ (fuel : ℕ) (cs : List Char) (prev : Option Char), cs.length < fuel →
      (∀ c ∈ cs, isPySpace c = true → c = ' ') →
      List.Chain' noTwoSpaces cs →
      reSubGo matchSpacesRun [' '] fuel prev cs = cs := by
  intro fuel
  induction fuel with
  | zero => intro cs prev h; omega
  | succ fuel ih =>
    intro cs prev h hmem hchain
    match cs with
    | [] => simp [reSubGo]
    | c :: rest =>
      by_cases hc : isPySpace c = true
      · have hceq : c = ' ' := hmem c (List.mem_cons_self _ _) hc
        have hresthead : ∀ y ∈ rest.head?, isPySpace y = false := by
          intro y hy
          have := (List.chain'_cons'.mp hchain).1 y hy
          rw [noTwoSpaces] at this
          by_cases hys : isPySpace y = true
          · exact absurd ⟨hc, hys⟩ this
          · simpa using hys
        have htw : rest.takeWhile (isPySpace ·) = [] := by
          match hrest : rest with
          | [] => rfl
          | y :: rest' =>
            have hy : isPySpace y = false := hresthead y (by simp)
            exact List.takeWhile_cons_of_neg (by simp [hy])
        have hsp : (c :: rest).takeWhile (isPySpace ·) = [c] := by
          rw [List.takeWhile_cons_of_pos hc, htw]
        have hm : matchSpacesRun prev (c :: rest) = some 1 := by
          rw [matchSpacesRun]
          simp only [hsp]
          simp
        simp only [reSubGo, hm, List.drop_succ_cons, List.drop_zero]
        rw [ih rest _ (by simp only [List.length_cons] at h; omega)
          (fun c' hc' => hmem c' (List.mem_cons_of_mem _ hc'))
          (List.Chain'.tail hchain)]
        rw [hceq]
        rfl
      · have hm : matchSpacesRun prev (c :: rest) = none := by
          rw [matchSpacesRun]
          simp only [List.takeWhile_cons_of_neg (by simpa using hc)]
          simp
        simp only [reSubGo, hm]
        rw [ih rest _ (by simp only [List.length_cons] at h; omega)
          (fun c' hc' => hmem c' (List.mem_cons_of_mem _ hc'))
          (List.Chain'.tail hchain)]

theorem pyStripChars_prefix_dropWhile (cs : List Char) :
    pyStripChars cs <+: cs.dropWhile (isPySpace ·) := by
  have h := List.reverse_prefix.mpr
    (List.dropWhile_suffix (l := (cs.dropWhile (isPySpace ·)).reverse) (isPySpace ·))
  rw [List.reverse_reverse] at h
  exact h

theorem pyStripChars_isInfix (cs : List Char) : pyStripChars cs <:+: cs :=
  (pyStripChars_prefix_dropWhile cs).isInfix.trans
    (List.dropWhile_suffix (isPySpace ·)).isInfix

theorem pyStripChars_head_not_space (cs : List Char) :
    ∀ c ∈ (pyStripChars cs).head?, isPySpace c = false := by
  intro c hc
  obtain ⟨t, ht⟩ := pyStripChars_prefix_dropWhile cs
  match hres : pyStripChars cs with
  | [] => rw [hres] at hc; simp at hc
  | x :: xs =>
    rw [hres] at hc ht
    simp only [List.head?_cons, Option.mem_def, Option.some.injEq] at hc
    have hhead : (cs.dropWhile (isPySpace ·)).head? = some x := by
      rw [← ht]; simp
    rw [← hc]
    exact head?_dropWhile_false _ _ x hhead

theorem pyStripChars_getLast_not_space (cs : List Char) :
    ∀ c ∈ (pyStripChars cs).getLast?, isPySpace c = false := by
  intro c hc
  rw [List.getLast?_eq_head?_reverse] at hc
  rw [pyStripChars] at hc
  rw [List.reverse_reverse] at hc
  exact head?_dropWhile_false _ _ c hc

theorem pyStripChars_id (cs : List Char)
    (h1 : ∀ c ∈ cs.head?, isPySpace c = false)
    (h2 : ∀ c ∈ cs.getLast?, isPySpace c = false) :
    pyStripChars cs = cs := by
  have hd : cs.dropWhile (isPySpace ·) = cs := by
    cases cs with
    | nil => rfl
    | cons c rest =>
      exact List.dropWhile_cons_of_neg (by simp [h1 c (by simp)])
  rw [pyStripChars, hd]
  have hrev : cs.reverse.dropWhile (isPySpace ·) = cs.reverse := by
    match hr : cs.reverse with
    | [] => rfl
    | c :: rest =>
      have hlast : cs.getLast? = some c := by
        rw [List.getLast?_eq_head?_reverse, hr]; rfl
      exact List.dropWhile_cons_of_neg (by simp [h2 c hlast])
  rw [hrev, List.reverse_reverse]

/-- C6 (amended): the full cleaning pipeline is not idempotent (see the
counterexample: removing one duplicated reaction count may create a new
duplicated pair), but its final whitespace-normalization step
`re.sub(r'\s+', ' ', ...).strip()` is idempotent. -/
theorem C6_amended_whitespace_normalization_idem (cs : List Char) :
    normalizeWhitespace (normalizeWhitespace cs) = normalizeWhitespace cs := by
  obtain ⟨m1, m2, -⟩ :=
    spacesRun_go_normalizes (cs.length + 1) cs none (by omega)
  have hinf := pyStripChars_isInfix (reSub matchSpacesRun [' '] cs)
  have hmem : ∀ c ∈ pyStripChars (reSub matchSpacesRun [' '] cs),
      isPySpace c = true → c = ' ' :=
    fun c hc => m1 c (hinf.subset hc)
  have hchain : List.Chain' noTwoSpaces
      (pyStripChars (reSub matchSpacesRun [' '] cs)) :=
    m2.infix hinf
  show pyStripChars (reSub matchSpacesRun [' ']
      (pyStripChars (reSub matchSpacesRun [' '] cs))) = _
  rw [show reSub matchSpacesRun [' '] (pyStripChars (reSub matchSpacesRun [' '] cs)) =
      pyStripChars (reSub matchSpacesRun [' '] cs) from
    spacesRun_go_id _ _ none (by omega) hmem hchain]
  exact pyStripChars_id _
    (pyStripChars_head_not_space _) (pyStripChars_getLast_not_space _)

/-- C6 (counterexample): cleaning is not idempotent.  On `"1 2 2 1"` the
duplicated-count removal deletes the middle `"2 2"`, producing `"1 1"`; a
second application deletes that newly created pair, producing `""`, so
`clean(clean(x)) ≠ clean(x)`. -/
theorem C6_counterexample_clean_not_idempotent :
    clean_comment "1 2 2 1" = "1 1" ∧
    clean_comment (clean_comment "1 2 2 1") = "" ∧
    clean_comment (clean_comment "1 2 2 1") ≠ clean_comment "1 2 2 1" := by
  refine ⟨rfl, rfl, ?_⟩
  decide

theorem redditReplyLoop_trace (limit : ℕ) (gen : SComment → String) (postOk : ℕ → Bool)
    (blockMatch : SComment → Bool) :
    ∀ (cs : List SComment) (replied : List String) (count attempts : ℕ),
      ((redditReplyLoop limit gen postOk blockMatch cs replied count attempts).replies.map
          (fun r => r.username) =
        (redditReplyLoop limit gen postOk blockMatch cs replied count attempts).processed.map
          (fun c => c.author)) ∧
      ((redditReplyLoop limit gen postOk blockMatch cs replied count attempts).processed.length +
        (redditReplyLoop limit gen postOk blockMatch cs replied count attempts).unmatched.length +
        (redditReplyLoop limit gen postOk blockMatch cs replied count attempts).skipped.length +
        (redditReplyLoop limit gen postOk blockMatch cs replied count attempts).remaining.length =
        cs.length) := by
  intro cs
  induction cs with
  | nil => intro replied count attempts; simp [redditReplyLoop]
  | cons row rest ih =>
    intro replied count attempts
    by_cases h1 : limit ≤ count
    · simp [redditReplyLoop, h1]
    · by_cases h2 : row.author ∈ replied
      · obtain ⟨ih1, ih2⟩ := ih replied count attempts
        simp only [redditReplyLoop, if_neg h1, if_pos h2, List.length_cons]
        exact ⟨ih1, by omega⟩
      · by_cases h3 : blockMatch row = true
        · by_cases h4 : postOk attempts
          · obtain ⟨ih1, ih2⟩ := ih (row.author :: replied) (count + 1) (attempts + 1)
            simp only [redditReplyLoop, if_neg h1, if_neg h2, if_pos h3, if_pos h4,
              List.map_cons, List.length_cons]
            exact ⟨by rw [ih1], by omega⟩
          · obtain ⟨ih1, ih2⟩ := ih replied count (attempts + 1)
            simp only [redditReplyLoop, if_neg h1, if_neg h2, if_pos h3, if_neg h4,
              List.map_cons, List.length_cons]
            exact ⟨by rw [ih1], by omega⟩
        · obtain ⟨ih1, ih2⟩ := ih replied count attempts
          simp only [redditReplyLoop, if_neg h1, if_neg h2, if_neg h3, List.length_cons]
          exact ⟨ih1, by omega⟩

/-- C5: in the Facebook reply loop every candidate processed to a success
or failure outcome is appended exactly once (the replies list carries, in
order, one entry per processed candidate), duplicate-author candidates are
skipped without being appended, and every candidate is accounted for
exactly once as processed, skipped, or cut off by the reply-limit break;
the Reddit loop satisfies the same accounting with the extra
no-matching-block case, which also appends nothing. -/
theorem C5_processed_appended_once (comments : List SComment) (limit : ℕ)
    (gen : SComment → String) (postOk : ℕ → Bool) (blockMatch : SComment → Bool) :
    (((fbReplyLoop limit gen postOk comments [] 0 0).replies.map
        (fun r => r.username) =
      (fbReplyLoop limit gen postOk comments [] 0 0).processed.map
        (fun c => c.author)) ∧
    ((fbReplyLoop limit gen postOk comments [] 0 0).replies.length =
      (fbReplyLoop limit gen postOk comments [] 0 0).processed.length) ∧
    ((fbReplyLoop limit gen postOk comments [] 0 0).processed.length +
      (fbReplyLoop limit gen postOk comments [] 0 0).skipped.length +
      (fbReplyLoop limit gen postOk comments [] 0 0).remaining.length =
      comments.length)) ∧
    (((redditReplyLoop limit gen postOk blockMatch comments [] 0 0).replies.map
        (fun r => r.username) =
      (redditReplyLoop limit gen postOk blockMatch comments [] 0 0).processed.map
        (fun c => c.author)) ∧
    ((redditReplyLoop limit gen postOk blockMatch comments [] 0 0).processed.length +
      (redditReplyLoop limit gen postOk blockMatch comments [] 0 0).unmatched.length +
      (redditReplyLoop limit gen postOk blockMatch comments [] 0 0).skipped.length +
      (redditReplyLoop limit gen postOk blockMatch comments [] 0 0).remaining.length =
      comments.length)) := by
  obtain ⟨h1, h2⟩ := fbReplyLoop_trace limit gen postOk comments [] 0 0
  obtain ⟨h3, h4⟩ := redditReplyLoop_trace limit gen postOk blockMatch comments [] 0 0
  refine ⟨⟨h1, ?_, h2⟩, h3, h4⟩
  have := congrArg List.length h1
  simpa using this

theorem execGo_tryCatchFinally_runs_finally (fails : String → Bool)
    (body handler fin : Stmt) :
    ∀ t ∈ (execGo fails fin).1,
      t ∈ (execGo fails (.tryCatchFinally body handler fin)).1 := by
  intro t ht
  rw [execGo]
  by_cases h : (execGo fails body).2
  · simp only [if_pos h]
    simp [List.mem_append, ht]
  · simp only [if_neg h]
    simp [List.mem_append, ht]

/-- C9 (amended): in the Instagram variant `driver.quit()` sits in a
`finally`, so it is attempted on every exit path — normal completion, any
raise inside the pipeline, and the `sys.exit(1)` of the failure handler —
whatever steps fail; the Facebook variant lacks this (see the
counterexample). -/
theorem C9_amended_ig_quit_on_every_path (nposts ncands : ℕ)
    (fails : String → Bool) :
    "driverQuit" ∈ (execGo fails (igMainStmt nposts ncands)).1 := by
  apply execGo_tryCatchFinally_runs_finally
  simp [execGo]

/-- C9 (counterexample): in the Facebook variant a raise during the Google
search (an exit path of the pipeline) terminates the run without
`driver.quit()` ever being attempted, while a fully normal run does reach
it — so the session is *not* released on every exit path. -/
theorem C9_counterexample_fb_leaks_driver_on_search_error :
    "driverQuit" ∉ (execGo (fun t => t == "googleSearch") (fbMainStmt 2 2)).1 ∧
    (execGo (fun t => t == "googleSearch") (fbMainStmt 2 2)).2 = true ∧
    "driverQuit" ∈ (execGo (fun _ => false) (fbMainStmt 2 2)).1 := by
  refine ⟨by decide, by decide, by decide⟩

/-- C10: `json` is unbound at the first progress emission (the only
`import json` executes after the reply loop), so for every run — whatever
links the search would have produced — the Reddit scraper raises
`NameError` for `json` during the Google search phase and never reaches
comment extraction. -/
theorem C10_reddit_json_unbound_aborts_run (links : List String) :
    "json" ∉ redditGlobalsAtFirstEmit ∧
    redditMain links = .error (.nameError "json") := by
  exact ⟨by decide, rfl⟩

end SocialScraper
